import Mathlib

/-!
Verification of the nnabla-examples training scripts.

This file shallowly embeds the two driver scripts of the repository:

* `src/distributed/cifar10-100/multi_device_multi_process_classification.py`
  (the `train` function): learning-rate warmup, checkpoint resume, the
  training-loop iteration range, the per-rank validation loop with batch
  truncation, the all-reduce averaging of the validation error, and the
  rank-0-only side effects.

* `src/reduction/cifar10/distillation/distillation.py` (the `distil`
  function): the teacher/student parameter scopes, the solver's parameter
  set, and the best-model saving logic of the training loop.

Machine floats of the scripts are modelled as exact rationals (`ℚ`), and
Python's `int(a / b)` on non-negative operands as natural-number division.
-/

namespace MultiDevice

/-- `warmup_iter = int(1. * n_train_samples / args.batch_size / n_devices) * args.warmup_epoch`
(line 124-125 of the distributed script). -/
def warmupIter (nTrainSamples batchSize nDevices warmupEpoch : ℕ) : ℕ :=
  nTrainSamples / batchSize / nDevices * warmupEpoch

/-- `warmup_slope = base_lr * (n_devices - 1) / warmup_iter` (line 126). -/
def warmupSlope (baseLr : ℚ) (nDevices wIter : ℕ) : ℚ :=
  baseLr * ((nDevices : ℚ) - 1) / (wIter : ℚ)

/-- The learning rate held by the solver after the update of step `i`.
Before the loop the rate is set to `base_lr` (line 127); inside the loop,
after `solver.update()`, step `i` runs `if i <= warmup_iter:
lr = base_lr + warmup_slope * i; solver.set_learning_rate(lr)`
(lines 226-229); on later steps no `set_learning_rate` call occurs, so the
rate is unchanged from the previous step. -/
def lrAfter (baseLr slope : ℚ) (wIter : ℕ) : ℕ → ℚ
  | 0 => if 0 ≤ wIter then baseLr + slope * 0 else baseLr
  | i + 1 =>
    if i + 1 ≤ wIter then baseLr + slope * (i + 1 : ℕ)
    else lrAfter baseLr slope wIter i

/-- The line the spec describes for C1: starting at `0` at `i = 0` and
reaching `base_lr` at `i = warmup_iter`.  This is the spec's words, not the
source; it is compared against `lrAfter`. -/
def specWarmupLine (baseLr : ℚ) (wIter i : ℕ) : ℚ :=
  baseLr * (i : ℚ) / (wIter : ℚ)

/-- The iteration indices of a fresh (non-resumed) run:
`range(start_point, int(args.max_iter / n_devices))` with `start_point = 0`
(line 176). -/
def trainIters (maxIter nDevices : ℕ) : List ℕ :=
  List.range (maxIter / nDevices)

/-- The validation period: `int(n_train_samples / args.batch_size / n_devices)`
(line 178). -/
def valPeriod (nTrainSamples batchSize nDevices : ℕ) : ℕ :=
  nTrainSamples / batchSize / nDevices

/-- Step `i` runs validation iff `i % int(n_train_samples / batch_size / n_devices) == 0`
(line 178). -/
def doesValidate (nTrainSamples batchSize nDevices i : ℕ) : Bool :=
  i % valPeriod nTrainSamples batchSize nDevices == 0

end MultiDevice

namespace MultiDevice

/-- C1: the claim that warmup is a line from `0` at `i = 0` to `base_lr`
at `i = warmup_iter` fails on the code: with `base_lr = 1`,
`n_devices = 2` and `warmup_iter = 100` (e.g. `batch_size = 250`,
`warmup_epoch = 1`), the rate set at step `i = 0` is `base_lr = 1`,
whereas the claimed line gives `0`. -/
theorem C1_counterexample :
    lrAfter 1 (warmupSlope 1 2 (warmupIter 50000 250 2 1))
        (warmupIter 50000 250 2 1) 0 = 1 ∧
      specWarmupLine 1 (warmupIter 50000 250 2 1) 0 = 0 ∧ (1 : ℚ) ≠ 0 := by
  refine ⟨?_, ?_, by norm_num⟩
  · simp [lrAfter, warmupIter]
  · simp [specWarmupLine]

/-- C1 (amended): warmup is linear, but from `base_lr` at `i = 0` with
slope `warmup_slope = base_lr * (n_devices - 1) / warmup_iter`: for every
`i ≤ warmup_iter`, the rate set after step `i` is
`base_lr + warmup_slope * i`; in particular it starts at `base_lr` at
`i = 0` and reaches `n_devices * base_lr` at `i = warmup_iter` (when
`warmup_iter > 0`). -/
theorem C1_warmup_linear (baseLr : ℚ) (nDevices wIter : ℕ) (hw : 0 < wIter)
    (i : ℕ) (hi : i ≤ wIter) :
    lrAfter baseLr (warmupSlope baseLr nDevices wIter) wIter i =
        baseLr + warmupSlope baseLr nDevices wIter * i ∧
      lrAfter baseLr (warmupSlope baseLr nDevices wIter) wIter 0 = baseLr ∧
      lrAfter baseLr (warmupSlope baseLr nDevices wIter) wIter wIter =
        (nDevices : ℚ) * baseLr := by
  have key : ∀ j : ℕ, j ≤ wIter →
      lrAfter baseLr (warmupSlope baseLr nDevices wIter) wIter j =
        baseLr + warmupSlope baseLr nDevices wIter * j := by
    intro j hj
    cases j with
    | zero => simp [lrAfter]
    | succ k => simp [lrAfter, hj]
  refine ⟨key i hi, ?_, ?_⟩
  · simpa using key 0 (Nat.zero_le _)
  · rw [key wIter le_rfl, warmupSlope]
    have hw' : (wIter : ℚ) ≠ 0 := by exact_mod_cast hw.ne'
    field_simp
    ring

/-- Witness for `C1_warmup_linear` at `baseLr = 1`, `nDevices = 2`,
`wIter = 4`, `i = 3`. -/
theorem C1_witness :
    lrAfter 1 (warmupSlope 1 2 4) 4 3 = 1 + warmupSlope 1 2 4 * 3 ∧
      lrAfter 1 (warmupSlope 1 2 4) 4 0 = 1 ∧
      lrAfter 1 (warmupSlope 1 2 4) 4 4 = (2 : ℕ) * 1 :=
  C1_warmup_linear 1 2 4 (by decide) 3 (by decide)

/-- C9: for every `i ≤ warmup_iter` the rate set at step `i` is
`base_lr + warmup_slope * i`, and for every `i > warmup_iter` no
`set_learning_rate` call occurs, so the rate keeps the last value set
during warmup, `base_lr + warmup_slope * warmup_iter` (which differs from
`base_lr` whenever the slope is nonzero), rather than being reset to
`base_lr`. -/
theorem C9_lr_after_warmup (baseLr slope : ℚ) (wIter i : ℕ) :
    (i ≤ wIter → lrAfter baseLr slope wIter i = baseLr + slope * i) ∧
      (wIter < i →
        lrAfter baseLr slope wIter i = baseLr + slope * wIter ∧
          (slope ≠ 0 → 0 < wIter → lrAfter baseLr slope wIter i ≠ baseLr)) := by
  constructor
  · intro hi
    cases i with
    | zero => simp [lrAfter]
    | succ k => simp [lrAfter, hi]
  · intro hi
    have hlast : lrAfter baseLr slope wIter i = baseLr + slope * wIter := by
      induction i with
      | zero => omega
      | succ k ih =>
        rcases Nat.lt_or_ge wIter k.succ with h | h
        · have hk : ¬ (k + 1 ≤ wIter) := by omega
          rcases Nat.lt_or_ge wIter k with hk' | hk'
          · simpa [lrAfter, hk] using ih hk'
          · have hkw : k = wIter := by omega
            subst hkw
            cases k with
            | zero => simp [lrAfter, hk]
            | succ m => simp [lrAfter, hk]
        · omega
    refine ⟨hlast, fun hs hw => ?_⟩
    rw [hlast]
    intro habs
    have : slope * wIter = 0 := by linarith
    have hwz : (wIter : ℚ) = 0 := by
      rcases mul_eq_zero.mp this with h | h
      · exact absurd h hs
      · exact h
    have : wIter = 0 := by exact_mod_cast hwz
    omega

/-- Witness for `C9_lr_after_warmup` with `wIter = 2`, `slope = 1/2`:
during warmup at `i = 1`, and after warmup at `i = 5`. -/
theorem C9_witness :
    lrAfter 1 (1/2) 2 1 = 1 + (1/2) * 1 ∧
      lrAfter 1 (1/2) 2 5 = 1 + (1/2) * 2 ∧
      lrAfter 1 (1/2) 2 5 ≠ 1 :=
  ⟨(C9_lr_after_warmup 1 (1/2) 2 1).1 (by decide),
    ((C9_lr_after_warmup 1 (1/2) 2 5).2 (by decide)).1,
    ((C9_lr_after_warmup 1 (1/2) 2 5).2 (by decide)).2 (by norm_num)
      (by decide)⟩

/-- C3: a fresh run executes exactly `int(max_iter / n_devices)` training
steps per rank; step `i` runs validation iff
`i % int(n_train_samples / batch_size / n_devices) == 0`; and with
`max_iter = 20`, `n_devices = 2` each rank performs exactly 10 steps. -/
theorem C3_iteration_count (maxIter nDevices nTrain bs : ℕ) :
    (trainIters maxIter nDevices).length = maxIter / nDevices ∧
      (∀ i, doesValidate nTrain bs nDevices i = true ↔
        i % (nTrain / bs / nDevices) = 0) ∧
      (trainIters 20 2).length = 10 := by
  refine ⟨by simp [trainIters], fun i => ?_, by simp [trainIters]⟩
  simp [doesValidate, valPeriod]

/-- Witness for `C3_iteration_count` instantiated at
`maxIter = 20`, `nDevices = 2`, `nTrain = 50000`, `bs = 2500`, taking the
validation-schedule conjunct at `i = 10`. -/
theorem C3_witness :
    (trainIters 20 2).length = 20 / 2 ∧
      (doesValidate 50000 2500 2 10 = true ↔ 10 % (50000 / 2500 / 2) = 0) :=
  ⟨(C3_iteration_count 20 2 50000 2500).1,
    (C3_iteration_count 20 2 50000 2500).2.1 10⟩

/-- Modelled from the spec: `load_checkpoint` lives in the `checkpoint`
module (imported at line 34), which is not under `src/`.  Per the spec
(§2 "Checkpoint I/O — persists/restores solver state and iteration index
to resume", §3 "Checkpoint Record: (iteration index, solver state, file
naming convention checkpoint_<idx>.json)"), loading
`checkpoint_<idx>.json` restores solver state and returns the iteration
index `idx` recorded in it. -/
def load_checkpoint (idx : ℕ) : ℕ := idx

/-- The starting iteration computed at lines 129-138: `start_point = 0`,
and when `use_latest_checkpoint` is set and the glob of
`checkpoint_*.json` files is non-empty, `index` is the `max` of the
integers extracted from the filenames and
`start_point = load_checkpoint(checkpoint_<index>.json)`.  A checkpoint
file is represented here by the index extracted from its filename. -/
def startPoint (useLatestCheckpoint : Bool) (files : List ℕ) : ℕ :=
  if useLatestCheckpoint then
    match files with
    | [] => 0
    | f :: fs => load_checkpoint (fs.foldl max f)
  else 0

/-- Python's `max` over a non-empty list, as the fold the embedding uses:
the result is an element of the list. -/
theorem foldl_max_mem (fs : List ℕ) : ∀ a, fs.foldl max a ∈ a :: fs := by
  induction fs with
  | nil => intro a; simp
  | cons b fs ih =>
    intro a
    rw [List.foldl_cons]
    rcases List.mem_cons.mp (ih (max a b)) with h' | h'
    · rcases max_choice a b with hm | hm <;> rw [h', hm]
      · exact List.mem_cons_self _ _
      · exact List.mem_cons_of_mem _ (List.mem_cons_self _ _)
    · exact List.mem_cons_of_mem _ (List.mem_cons_of_mem _ h')

/-- Python's `max` over a non-empty list bounds every element. -/
theorem le_foldl_max (fs : List ℕ) :
    ∀ a x, x ∈ a :: fs → x ≤ fs.foldl max a := by
  induction fs with
  | nil =>
    intro a x hx
    rw [List.mem_singleton] at hx
    exact hx.le
  | cons b fs ih =>
    intro a x hx
    rw [List.foldl_cons]
    have hbound : max a b ≤ fs.foldl max (max a b) :=
      ih (max a b) (max a b) (List.mem_cons_self _ _)
    rcases List.mem_cons.mp hx with h | h
    · rw [h]; exact le_trans (le_max_left a b) hbound
    · rcases List.mem_cons.mp h with h' | h'
      · rw [h']; exact le_trans (le_max_right a b) hbound
      · exact ih (max a b) x (List.mem_cons_of_mem _ h')

/-- C7: with `use_latest_checkpoint` set, when no checkpoint file exists
the loop starts at 0, and when at least one exists the starting iteration
is obtained by loading the checkpoint with the maximum extracted index:
it is one of the indices and bounds all of them. -/
theorem C7_resume_from_latest (f : ℕ) (fs : List ℕ) :
    startPoint true [] = 0 ∧
      startPoint true (f :: fs) ∈ f :: fs ∧
      (∀ x ∈ f :: fs, x ≤ startPoint true (f :: fs)) ∧
      startPoint true (f :: fs) = load_checkpoint (fs.foldl max f) := by
  refine ⟨rfl, ?_, ?_, rfl⟩
  · simpa [startPoint, load_checkpoint] using foldl_max_mem fs f
  · intro x hx
    simpa [startPoint, load_checkpoint] using le_foldl_max fs f x hx

/-- Witness for `C7_resume_from_latest` on the file list
`[checkpoint_3.json, checkpoint_7.json, checkpoint_5.json]`, with the
bound instantiated at the index 5. -/
theorem C7_witness :
    startPoint true [] = 0 ∧
      startPoint true [3, 7, 5] ∈ [3, 7, 5] ∧
      5 ≤ startPoint true [3, 7, 5] ∧
      startPoint true [3, 7, 5] = load_checkpoint ([7, 5].foldl max 3) :=
  ⟨(C7_resume_from_latest 3 [7, 5]).1,
    (C7_resume_from_latest 3 [7, 5]).2.1,
    (C7_resume_from_latest 3 [7, 5]).2.2.1 5 (by decide),
    (C7_resume_from_latest 3 [7, 5]).2.2.2⟩

/-- Python's `data[j : j + bs]`: slicing clamps at the end of the list. -/
def pySlice {α : Type} (data : List α) (j bs : ℕ) : List α :=
  (data.drop j).take bs

/-- The `j` values of `range(lo, hi, bs)` (lines 184-186):
`lo, lo + bs, lo + 2 bs, ...` strictly below `hi`, which is
`⌈(hi - lo) / bs⌉` values. -/
def jRange (lo hi bs : ℕ) : List ℕ :=
  List.range' lo ((hi - lo + bs - 1) / bs) bs

/-- The validation inner loop (lines 179-196): starting from
`ve_local = 0`, `k = 0`, each `j` takes the slice
`val_images[j : j + bs_valid]`; a slice whose length is not `bs_valid` is
skipped (`continue`, line 189-190), otherwise its error is accumulated
into `ve_local` and `k` is incremented.  `err` is the categorical error
the forward pass computes on a full batch.  Addition of exact rationals
is associative and commutative, so the accumulator is written as
structural recursion over the `j` list; the pair is `(ve_local, k)`. -/
def valLoop {α : Type} (err : List α → ℚ) (data : List α) (bs : ℕ) :
    List ℕ → ℚ × ℕ
  | [] => (0, 0)
  | j :: js =>
    let s := pySlice data j bs
    let r := valLoop err data bs js
    if s.length = bs then (err s + r.1, r.2 + 1) else r

/-- `ve_local /= k` (line 196): the local mean over the counted batches,
for the `j` values of `range(lo, hi, bs)`. -/
def veLocal {α : Type} (err : List α → ℚ) (data : List α) (bs lo hi : ℕ) : ℚ :=
  let r := valLoop err data bs (jRange lo hi bs)
  r.1 / (r.2 : ℚ)

/-- The full-size slices among those the loop visits. -/
def fullSlices {α : Type} (data : List α) (bs : ℕ) (js : List ℕ) :
    List (List α) :=
  (js.map (fun j => pySlice data j bs)).filter (fun s => s.length == bs)

/-- The loop accumulator equals the sum of the errors of the full-size
slices paired with their count: short slices contribute nothing. -/
theorem valLoop_eq_fullSlices {α : Type} (err : List α → ℚ) (data : List α)
    (bs : ℕ) : ∀ js : List ℕ,
    valLoop err data bs js =
      (((fullSlices data bs js).map err).sum, (fullSlices data bs js).length) := by
  intro js
  induction js with
  | nil => simp [valLoop, fullSlices]
  | cons j js ih =>
    by_cases h : (pySlice data j bs).length = bs
    · simp [valLoop, fullSlices, List.filter_cons, h, ih, Prod.ext_iff]
    · simp [valLoop, fullSlices, List.filter_cons, h, ih, Prod.ext_iff]

/-- C8: every slice whose length differs from `bs_valid` is skipped
entirely — removing it from the visit list leaves the accumulator
unchanged — no batch is padded, and the local mean error is the mean over
only the full-size slices of the rank's partition. -/
theorem C8_short_batches_dropped {α : Type} (err : List α → ℚ)
    (data : List α) (bs lo hi : ℕ) :
    veLocal err data bs lo hi =
        ((fullSlices data bs (jRange lo hi bs)).map err).sum /
          ((fullSlices data bs (jRange lo hi bs)).length : ℚ) ∧
      (∀ j js, (pySlice data j bs).length ≠ bs →
        valLoop err data bs (j :: js) = valLoop err data bs js) := by
  constructor
  · rw [veLocal, valLoop_eq_fullSlices]
  · intro j js h
    simp [valLoop, h]

/-- A concrete stand-in batch error used by the witnesses: the sum of the
batch, as a rational. -/
def natBatchErr (s : List ℕ) : ℚ := (s.sum : ℚ)

/-- Witness for `C8_short_batches_dropped` on
`data = range 10`, `bs = 4`, the partition `[0, 10)`: the final slice
`data[8 : 12]` has length 2 and is dropped, so the mean is over the two
full slices. -/
theorem C8_witness :
    veLocal natBatchErr (List.range 10) 4 0 10 =
        ((fullSlices (List.range 10) 4 (jRange 0 10 4)).map natBatchErr).sum /
          ((fullSlices (List.range 10) 4 (jRange 0 10 4)).length : ℚ) ∧
      valLoop natBatchErr (List.range 10) 4 [8] =
        valLoop natBatchErr (List.range 10) 4 [] :=
  ⟨(C8_short_batches_dropped natBatchErr (List.range 10) 4 0 10).1,
    (C8_short_batches_dropped natBatchErr (List.range 10) 4 0 10).2 8 []
      (by decide)⟩

/-- Modelled from the spec: `comm.all_reduce(ve.data, division=True,
inplace=True)` (line 198) is the external communicator, not under `src/`.
Per the spec glossary ("All-reduce: collective operation combining a value
from every process and distributing the combined result back to all") and
§4.1 ("an all-reduce averages this scalar across ranks (division=True)"),
with `division=True` every rank ends up holding the sum of the per-rank
values divided by the number of ranks.  `vs` lists the per-rank values;
the result is the value every rank holds afterwards. -/
def allReduceDiv (vs : List ℚ) : ℚ := vs.sum / (vs.length : ℚ)

/-- `int(n_valid_samples / n_devices * rank)` (lines 184-185): float
division followed by multiplication and `int` truncation, modelled
exactly on rationals (the operands are non-negative, so truncation is
the floor). -/
def partBound (nValid nDevices r : ℕ) : ℕ :=
  (⌊(nValid : ℚ) / (nDevices : ℚ) * (r : ℚ)⌋).toNat

/-- The local mean validation error of rank `r`, over the partition
`[int(n_valid/n_devices*r), int(n_valid/n_devices*(r+1)))` (lines
184-196). -/
def veLocalRank {α : Type} (err : List α → ℚ) (data : List α)
    (bs nValid nDevices r : ℕ) : ℚ :=
  veLocal err data bs (partBound nValid nDevices r)
    (partBound nValid nDevices (r + 1))

/-- C5: after the all-reduce with `division=True`, the value held by every
rank equals the arithmetic mean of the per-rank local mean errors; and
when `n_devices` evenly divides `n_valid_samples` the partition bound of
every rank is exactly `(n_valid / n_devices) * rank`. -/
theorem C5_allreduce_is_mean {α : Type} (err : List α → ℚ) (data : List α)
    (bs nValid nDevices : ℕ) (hdvd : nDevices ∣ nValid)
    (hpos : 0 < nDevices) (r : ℕ) (_hr : r ≤ nDevices) :
    allReduceDiv
        ((List.range nDevices).map (veLocalRank err data bs nValid nDevices)) =
      ((List.range nDevices).map
        (veLocalRank err data bs nValid nDevices)).sum / (nDevices : ℚ) ∧
    partBound nValid nDevices r = nValid / nDevices * r := by
  obtain ⟨q, hq⟩ := hdvd
  constructor
  · simp [allReduceDiv]
  · have hnd : (nDevices : ℚ) ≠ 0 := by exact_mod_cast hpos.ne'
    have h1 : (nValid : ℚ) / (nDevices : ℚ) * (r : ℚ) = ((q * r : ℕ) : ℚ) := by
      subst hq; push_cast; field_simp
    rw [partBound, h1, Int.floor_natCast, Int.toNat_natCast, hq,
      Nat.mul_div_cancel_left _ hpos]

/-- Witness for `C5_allreduce_is_mean` with `n_valid = 8`,
`n_devices = 2`, rank `1`. -/
theorem C5_witness :
    allReduceDiv
        ((List.range 2).map
          (veLocalRank (fun s => (s.sum : ℚ)) (List.range 8) 2 8 2)) =
      ((List.range 2).map
        (veLocalRank (fun s => (s.sum : ℚ)) (List.range 8) 2 8 2)).sum /
        ((2 : ℕ) : ℚ) ∧
    partBound 8 2 1 = 8 / 2 * 1 :=
  C5_allreduce_is_mean (fun s => (s.sum : ℚ)) (List.range 8) 2 8 2
    (by decide) (by decide) 1 (by decide)

/-- The observable file/monitor side effects of the training loop:
monitor-series entries, parameter snapshots and checkpoints. -/
inductive Event : Type
  | monitorAdd (series : String) (step : ℕ)
  | saveParams (idx : ℕ)
  | saveCheckpoint (idx : ℕ)
  deriving DecidableEq

/-- The side effects of the validation block of iteration `i`
(lines 200-209): on rank 0, the validation-error and validation-time
monitor entries at step `i * n_devices`, plus — when
`model_save_interval <= 0` — a parameter snapshot and a checkpoint; every
other rank emits nothing. -/
def valBlockEvents (rank nDevices i : ℕ) (msi : ℤ) : List Event :=
  if rank = 0 then
    [Event.monitorAdd "Validation error" (i * nDevices),
      Event.monitorAdd "Validation time" (i * nDevices)] ++
      (if msi ≤ 0 then [Event.saveParams i, Event.saveCheckpoint i] else [])
  else []

/-- The `model_save_interval` counter after the validation block on a
given rank (lines 204-209): incremented by
`int(args.model_save_interval / n_devices)` exactly when rank 0 saved. -/
def msiAfterValBlock (rank nDevices msiArg : ℕ) (msi : ℤ) : ℤ :=
  if rank = 0 ∧ msi ≤ 0 then msi + (msiArg / nDevices : ℕ) else msi

/-- The side effects of the per-step monitor block (lines 231-234):
training loss, error and elapsed time on rank 0 only. -/
def stepMonitorEvents (rank nDevices i : ℕ) : List Event :=
  if rank = 0 then
    [Event.monitorAdd "Training loss" (i * nDevices),
      Event.monitorAdd "Training error" (i * nDevices),
      Event.monitorAdd "Training time" (i * nDevices)]
  else []

/-- One loop iteration (lines 177-234): the validation block when
`i % val_period == 0`, the `model_save_interval -= 1` of line 210, the
training step (which writes nothing), and the rank-0 monitor block. -/
def iterEvents (rank nDevices nTrain bs msiArg i : ℕ) (msi : ℤ) :
    List Event × ℤ :=
  if doesValidate nTrain bs nDevices i then
    (valBlockEvents rank nDevices i msi ++ stepMonitorEvents rank nDevices i,
      msiAfterValBlock rank nDevices msiArg msi - 1)
  else (stepMonitorEvents rank nDevices i, msi - 1)

/-- The events of the first `n` loop iterations together with the final
`model_save_interval`, starting from `model_save_interval = 0`
(line 175). -/
def loopEvents (rank nDevices nTrain bs msiArg : ℕ) : ℕ → List Event × ℤ
  | 0 => ([], 0)
  | n + 1 =>
    let r := loopEvents rank nDevices nTrain bs msiArg n
    let e := iterEvents rank nDevices nTrain bs msiArg n r.2
    (r.1 ++ e.1, e.2)

/-- The final parameter save after the loop (lines 238-241), rank 0
only. -/
def finalEvents (rank nDevices maxIter : ℕ) : List Event :=
  if rank = 0 then [Event.saveParams (maxIter / nDevices)] else []

/-- C6: on every rank other than 0, no iteration of the loop — and not
the epilogue either — emits a monitor entry, a parameter snapshot or a
checkpoint: the whole event trace is empty. -/
theorem C6_rank0_only_writes (rank nDevices nTrain bs msiArg maxIter : ℕ)
    (h : rank ≠ 0) :
    (∀ n, (loopEvents rank nDevices nTrain bs msiArg n).1 = []) ∧
      finalEvents rank nDevices maxIter = [] := by
  constructor
  · intro n
    induction n with
    | zero => rfl
    | succ k ih =>
      simp [loopEvents, iterEvents, valBlockEvents, stepMonitorEvents, h,
        ih, apply_ite]
  · simp [finalEvents, h]

/-- Witness for `C6_rank0_only_writes` at rank 1 of 2 devices, taking the
loop conjunct after 5 iterations. -/
theorem C6_witness :
    (loopEvents 1 2 50000 100 1000 5).1 = [] ∧ finalEvents 1 2 20 = [] :=
  ⟨(C6_rank0_only_writes 1 2 50000 100 1000 20 (by decide)).1 5,
    (C6_rank0_only_writes 1 2 50000 100 1000 20 (by decide)).2⟩

end MultiDevice

namespace Distillation

/-- The state the best-model logic of the distillation loop carries
across iterations: the last computed mean validation error `ve`, the best
error seen `best` (initialised to `1.0`, line 99), and the iterations at
which `save_parameters` ran (the iteration also names the written file
`params_%06d.h5`, lines 112-113). -/
structure SaveState where
  ve : ℚ
  best : ℚ
  saves : List ℕ
  deriving DecidableEq

/-- One iteration of the best-model logic exactly as the code runs it
(lines 101-114): when `i % val_interval == 0` the validation pass
recomputes `ve` (`errAt i` is the mean error that pass produces at
iteration `i`), and then on every iteration `if ve < best_ve:` saves and
updates `best_ve`. -/
def distilStep (valInterval : ℕ) (errAt : ℕ → ℚ) (i : ℕ)
    (s : SaveState) : SaveState :=
  let s1 := if i % valInterval = 0 then { s with ve := errAt i } else s
  if s1.ve < s1.best then
    { s1 with best := s1.ve, saves := s1.saves ++ [i] }
  else s1

/-- The refinement variant of the loop body: the best-model comparison
runs only immediately after a validation pass. -/
def distilStepAtVal (valInterval : ℕ) (errAt : ℕ → ℚ) (i : ℕ)
    (s : SaveState) : SaveState :=
  if i % valInterval = 0 then
    let v := errAt i
    if v < s.best then { ve := v, best := v, saves := s.saves ++ [i] }
    else { s with ve := v }
  else s

/-- The loop as the code runs it, for `n` iterations from state `s`. -/
def runDistil (valInterval : ℕ) (errAt : ℕ → ℚ) (s : SaveState) :
    ℕ → SaveState
  | 0 => s
  | n + 1 => distilStep valInterval errAt n (runDistil valInterval errAt s n)

/-- The refinement loop, for `n` iterations from state `s`. -/
def runDistilAtVal (valInterval : ℕ) (errAt : ℕ → ℚ) (s : SaveState) :
    ℕ → SaveState
  | 0 => s
  | n + 1 =>
    distilStepAtVal valInterval errAt n (runDistilAtVal valInterval errAt s n)

/-- The validation-error sequence of the spec's scenario:
`[0.5, 0.3, 0.4, 0.2]`. -/
def errSeq : ℕ → ℚ := fun i => [1/2, 3/10, 2/5, 1/5].getD i 0

/-- C2: a saving step occurs exactly when the current validation error is
strictly below the best seen so far; with `best_ve` initialised to `1.0`
and errors `[0.5, 0.3, 0.4, 0.2]` (validation every iteration), saves
happen at iterations 0, 1 and 3 — i.e. at errors 0.5, 0.3 and 0.2 — and
the error 0.4 at iteration 2 produces no save. -/
theorem C2_best_model_saving :
    (runDistil 1 errSeq ⟨1, 1, []⟩ 4).saves = [0, 1, 3] ∧
      (runDistil 1 errSeq ⟨1, 1, []⟩ 4).best = 1/5 ∧
      ∀ (vint : ℕ) (errAt : ℕ → ℚ) (i : ℕ) (s : SaveState),
        (distilStep vint errAt i s).saves =
          if (if i % vint = 0 then errAt i else s.ve) < s.best then
            s.saves ++ [i]
          else s.saves := by
  refine ⟨by norm_num [runDistil, distilStep, errSeq],
    by norm_num [runDistil, distilStep, errSeq], ?_⟩
  intro vint errAt i s
  by_cases hi : i % vint = 0
  · by_cases hlt : errAt i < s.best
    · simp [distilStep, hi, hlt]
    · simp [distilStep, hi, hlt]
  · by_cases hlt : s.ve < s.best
    · simp [distilStep, hi, hlt]
    · simp [distilStep, hi, hlt]

/-- At a validation iteration the code's loop body and the refinement
body agree for any two states sharing `best` and `saves` (the incoming
`ve` is overwritten by the validation pass before the comparison), and
afterwards `best ≤ ve` holds. -/
theorem distilStep_val_eq (vint : ℕ) (errAt : ℕ → ℚ) (i : ℕ)
    (hi : i % vint = 0) (s t : SaveState) (hb : s.best = t.best)
    (hsv : s.saves = t.saves) :
    distilStep vint errAt i s = distilStepAtVal vint errAt i t ∧
      (distilStep vint errAt i s).best ≤ (distilStep vint errAt i s).ve := by
  rcases s with ⟨sv, sb, ss⟩
  rcases t with ⟨tv, tb, ts⟩
  simp only at hb hsv
  subst hb; subst hsv
  by_cases hlt : errAt i < sb
  · simp [distilStep, distilStepAtVal, hi, hlt]
  · simp [distilStep, distilStepAtVal, hi, hlt, le_of_not_lt hlt]

/-- Away from validation iterations, a state satisfying `best ≤ ve` is a
fixed point of the code's loop body, and the refinement body skips it by
definition: between two validation passes the comparison can succeed at
most once (immediately after the pass), after which `best = ve`. -/
theorem distilStep_nonval_fix (vint : ℕ) (errAt : ℕ → ℚ) (i : ℕ)
    (hi : ¬ i % vint = 0) (s : SaveState) (hs : s.best ≤ s.ve) :
    distilStep vint errAt i s = s ∧ distilStepAtVal vint errAt i s = s := by
  constructor
  · simp [distilStep, hi, not_lt.mpr hs]
  · simp [distilStepAtVal, hi]

/-- After any positive number of iterations the code's loop and the
refinement loop reach the same state — whatever (uninitialised) `ve`
values the two start from — and the invariant `best ≤ ve` holds. -/
theorem runDistil_eq_runAtVal (vint : ℕ) (errAt : ℕ → ℚ) (ve0 ve0' : ℚ) :
    ∀ n, 1 ≤ n →
      runDistil vint errAt ⟨ve0, 1, []⟩ n =
          runDistilAtVal vint errAt ⟨ve0', 1, []⟩ n ∧
        (runDistil vint errAt ⟨ve0, 1, []⟩ n).best ≤
          (runDistil vint errAt ⟨ve0, 1, []⟩ n).ve := by
  intro n
  induction n with
  | zero => intro h; exact absurd h (by decide)
  | succ k ih =>
    intro _
    rcases Nat.eq_zero_or_pos k with hk | hk
    · subst hk
      have h := distilStep_val_eq vint errAt 0 (Nat.zero_mod vint)
        ⟨ve0, 1, []⟩ ⟨ve0', 1, []⟩ rfl rfl
      simpa [runDistil, runDistilAtVal] using h
    · obtain ⟨hAB, hinv⟩ := ih hk
      by_cases hi : k % vint = 0
      · have h := distilStep_val_eq vint errAt k hi
          (runDistil vint errAt ⟨ve0, 1, []⟩ k)
          (runDistilAtVal vint errAt ⟨ve0', 1, []⟩ k)
          (by rw [hAB]) (by rw [hAB])
        simpa [runDistil, runDistilAtVal] using h
      · have hfixA := distilStep_nonval_fix vint errAt k hi _ hinv
        constructor
        · simp only [runDistil, runDistilAtVal]
          rw [hfixA.1, hAB,
            (distilStep_nonval_fix vint errAt k hi _ (hAB ▸ hinv)).2]
        · simp only [runDistil]
          rw [hfixA.1]
          exact hinv

/-- C10: for every `val_interval ≥ 1` validation runs at iteration 0
(`0 % val_interval = 0`), so `ve` is assigned before the first
comparison; between validation passes the check fires at most once (a
state with `best ≤ ve` is a fixed point of the loop body away from
validation iterations); and running the best-model check on every
iteration produces exactly the saves (same iterations, hence same
filenames) and the same `best_ve` evolution as checking only right after
each validation pass, for any initial contents of `ve`. -/
theorem C10_check_placement_equiv (vint : ℕ) (_hv : 1 ≤ vint)
    (errAt : ℕ → ℚ) (ve0 ve0' : ℚ) (n : ℕ) :
    0 % vint = 0 ∧
      (runDistil vint errAt ⟨ve0, 1, []⟩ n).saves =
        (runDistilAtVal vint errAt ⟨ve0', 1, []⟩ n).saves ∧
      (runDistil vint errAt ⟨ve0, 1, []⟩ n).best =
        (runDistilAtVal vint errAt ⟨ve0', 1, []⟩ n).best ∧
      (∀ i s, ¬ i % vint = 0 → s.best ≤ s.ve →
        distilStep vint errAt i s = s) := by
  refine ⟨Nat.zero_mod vint, ?_, ?_,
    fun i s hi hs => (distilStep_nonval_fix vint errAt i hi s hs).1⟩
  all_goals
    rcases Nat.eq_zero_or_pos n with hn | hn
  · subst hn; rfl
  · rw [(runDistil_eq_runAtVal vint errAt ve0 ve0' n hn).1]
  · subst hn; rfl
  · rw [(runDistil_eq_runAtVal vint errAt ve0 ve0' n hn).1]

/-- Witness for `C10_check_placement_equiv`: `val_interval = 2`, the
spec's error sequence, two different initial `ve` contents, 4
iterations, with the fixed-point conjunct instantiated at the
non-validation iteration `i = 1`. -/
theorem C10_witness :
    0 % 2 = 0 ∧
      (runDistil 2 errSeq ⟨0, 1, []⟩ 4).saves =
        (runDistilAtVal 2 errSeq ⟨7, 1, []⟩ 4).saves ∧
      (runDistil 2 errSeq ⟨0, 1, []⟩ 4).best =
        (runDistilAtVal 2 errSeq ⟨7, 1, []⟩ 4).best ∧
      distilStep 2 errSeq 1 ⟨1, 1, []⟩ = ⟨1, 1, []⟩ :=
  have h := C10_check_placement_equiv 2 (by decide) errSeq 0 7 4
  ⟨h.1, h.2.1, h.2.2.1, h.2.2.2 1 ⟨1, 1, []⟩ (by decide) le_rfl⟩

/-- `teacher = "teacher"` (line 53). -/
def teacher : String := "teacher"

/-- `student = "student"` (line 54). -/
def student : String := "student"

/-- A parameter name lies under a scope when it starts with
`scope + "/"`: `nn.parameter_scope(scope)` registers every parameter
created inside it under such a prefixed name (the teacher and student
graphs are built with `net=teacher` and `net=student`, lines 65-69). -/
def inScope (scope name : String) : Bool :=
  (scope ++ "/").data.isPrefixOf name.data

/-- `with nn.parameter_scope(student): solver.set_parameters(nn.get_parameters())`
(lines 85-86): the solver's parameter set is exactly the student-scope
entries of the global parameter dictionary (modelled as an association
list from scoped name to value). -/
def solverParams (ps : List (String × ℚ)) : List (String × ℚ) :=
  ps.filter (fun p => inScope student p.1)

/-- One `solver.update()` (line 121, together with the weight decay of
line 120): every parameter in the solver's set moves by the step `upd`
its gradient determines; every entry outside the solver's set is left
untouched. -/
def solverUpdate (upd : String → ℚ) (ps : List (String × ℚ)) :
    List (String × ℚ) :=
  ps.map (fun p => cond (inScope student p.1) (p.1, p.2 - upd p.1) p)

/-- `pred_label.need_grad = False` (line 67): no backward pass runs
through the teacher graph. -/
def teacherNeedGrad : Bool := false

/-- The parameter dictionary across the whole training loop: one solver
update per iteration. -/
def runTraining (upds : List (String → ℚ)) (ps : List (String × ℚ)) :
    List (String × ℚ) :=
  upds.foldl (fun q u => solverUpdate u q) ps

/-- No parameter name lies in both the teacher and the student scope:
the two prefixes differ in their first character. -/
theorem scopes_disjoint (n : String) :
    ¬ (inScope teacher n = true ∧ inScope student n = true) := by
  rintro ⟨h1, h2⟩
  rcases n with ⟨data⟩
  cases data with
  | nil => exact absurd h1 (by decide)
  | cons c cs =>
    have e1 : (teacher ++ "/").data = 't' :: "eacher/".data := by decide
    have e2 : (student ++ "/").data = 's' :: "tudent/".data := by decide
    rw [inScope, e1] at h1
    rw [inScope, e2] at h2
    simp [List.isPrefixOf] at h1 h2
    obtain ⟨hc1, -⟩ := h1
    obtain ⟨hc2, -⟩ := h2
    cases hc1
    exact absurd hc2 (by decide)

/-- A single solver update leaves every parameter outside the student
scope unchanged. -/
theorem lookup_solverUpdate (upd : String → ℚ) (n : String)
    (hn : inScope student n = false) :
    ∀ ps, List.lookup n (solverUpdate upd ps) = List.lookup n ps := by
  intro ps
  induction ps with
  | nil => rfl
  | cons p ps ih =>
    rcases p with ⟨k, v⟩
    by_cases hk : inScope student k = true
    · by_cases hnk : (n == k) = true
      · have hkn : n = k := eq_of_beq hnk
        subst hkn
        rw [hn] at hk
        exact absurd hk (by decide)
      · have hnk' : (n == k) = false := by simpa using hnk
        simp only [solverUpdate, List.map_cons, hk, cond_true, List.lookup,
          hnk'] at ih ⊢
        exact ih
    · have hk' : inScope student k = false := by simpa using hk
      cases hnk : (n == k) with
      | true => simp [solverUpdate, List.lookup, hk', hnk]
      | false =>
        simp only [solverUpdate, List.map_cons, hk', cond_false, List.lookup,
          hnk] at ih ⊢
        exact ih

/-- The whole training loop leaves every parameter outside the student
scope unchanged. -/
theorem lookup_runTraining (upds : List (String → ℚ)) (n : String)
    (hn : inScope student n = false) :
    ∀ ps, List.lookup n (runTraining upds ps) = List.lookup n ps := by
  induction upds with
  | nil => intro ps; rfl
  | cons u us ih =>
    intro ps
    have h1 : runTraining (u :: us) ps = runTraining us (solverUpdate u ps) :=
      rfl
    rw [h1, ih (solverUpdate u ps), lookup_solverUpdate u n hn ps]

/-- C4: the teacher and student scopes are disjoint; the solver's
parameter set is exactly the student-scope entries; no sequence of
training-loop iterations changes the value of any teacher-scope
parameter; and the teacher subgraph requires no gradient. -/
theorem C4_teacher_frozen (upds : List (String → ℚ))
    (ps : List (String × ℚ)) (n : String)
    (hn : inScope teacher n = true) :
    (∀ m, ¬ (inScope teacher m = true ∧ inScope student m = true)) ∧
      (∀ p, p ∈ solverParams ps ↔ p ∈ ps ∧ inScope student p.1 = true) ∧
      List.lookup n (runTraining upds ps) = List.lookup n ps ∧
      teacherNeedGrad = false := by
  refine ⟨scopes_disjoint, ?_, ?_, rfl⟩
  · intro p
    simp [solverParams, List.mem_filter]
  · have hns : inScope student n = false := by
      cases hst : inScope student n
      · rfl
      · exact absurd ⟨hn, hst⟩ (scopes_disjoint n)
    exact lookup_runTraining upds n hns ps

/-- Witness for `C4_teacher_frozen` on a two-entry dictionary holding one
teacher and one student parameter, with a single unit-step update; the
quantified conjuncts are instantiated at the two concrete names. -/
theorem C4_witness :
    ¬ (inScope teacher "teacher/conv_W" = true ∧
        inScope student "teacher/conv_W" = true) ∧
      (("student/conv_W", (5 : ℚ)) ∈ solverParams
            [("teacher/conv_W", (3 : ℚ)), ("student/conv_W", 5)] ↔
          ("student/conv_W", (5 : ℚ)) ∈
              [("teacher/conv_W", (3 : ℚ)), ("student/conv_W", 5)] ∧
            inScope student
              (("student/conv_W", (5 : ℚ)) : String × ℚ).1 = true) ∧
      List.lookup "teacher/conv_W"
          (runTraining [fun _ => 1]
            [("teacher/conv_W", (3 : ℚ)), ("student/conv_W", 5)]) =
        List.lookup "teacher/conv_W"
          [("teacher/conv_W", (3 : ℚ)), ("student/conv_W", 5)] ∧
      teacherNeedGrad = false :=
  have h := C4_teacher_frozen [fun _ => 1]
    [("teacher/conv_W", (3 : ℚ)), ("student/conv_W", 5)] "teacher/conv_W"
    (by decide)
  ⟨h.1 "teacher/conv_W", h.2.1 ("student/conv_W", 5), h.2.2.1, h.2.2.2⟩

end Distillation
